import Mathlib

/-!
Verification of the archive-backed module resolution and extraction-cache
system (Chaquopy Android importer) against its specification.

The repository sources available are `java/android/stream.py` (embedded
directly below) and the importer's Android test suite
(`chaquopy/test/android/test_import.py`).  The importer implementation
itself (`java/android/importer.py`) is not among the sources, so the
components it implements (CompiledCodeCache, ExtractionCache,
SearchPathResolver, BootstrapStager, MetadataProvider) are modelled from
the specification's component contracts; each such definition is marked
`Modelled from the spec:` in its doc comment.
-/

set_option autoImplicit false

namespace AndroidStream

/-- The constant `MAX_LINE_LEN = 4060` from `stream.py`: the maximum payload passed to
`Log.println` (LOGGER_ENTRY_MAX_PAYLOAD minus level marker and tag). -/
def MAX_LINE_LEN : Nat := 4060

/-- The line-boundary characters recognised by Python's `str.splitlines`. -/
def isLineBoundary (c : Char) : Bool :=
  c = '\n' || c = '\r' || c = '\x0B' || c = '\x0C' ||
  c = '\x1C' || c = '\x1D' || c = '\x1E' || c = '\x85' ||
  c = '\u2028' || c = '\u2029'

/-- Python's `str.splitlines` on a list of characters: splits at the line
boundary characters, treating `"\r\n"` as a single boundary; a trailing
boundary does not produce an extra empty line. -/
def splitlines : List Char → List (List Char)
  | [] => []
  | '\r' :: '\n' :: rest => [] :: splitlines rest
  | c :: rest =>
    if isLineBoundary c then
      [] :: splitlines rest
    else
      match splitlines rest with
      | [] => [[c]]
      | l :: ls => (c :: l) :: ls

/-- The `while True` loop body of `LogOutputStream.write`: repeatedly log
`line[:MAX_LINE_LEN]` and continue with `line[MAX_LINE_LEN:]` until the
remainder is empty.  The first argument is recursion fuel; the loop shortens
`line` by at least one character per iteration, so `line.length` fuel always
suffices (fuel `0` is reached only with `line = []`, where the loop also
logs exactly one (empty) chunk and stops). -/
def logChunksFuel : Nat → List Char → List (List Char)
  | 0, line => [line.take MAX_LINE_LEN]
  | fuel + 1, line =>
    if line.drop MAX_LINE_LEN = [] then
      [line.take MAX_LINE_LEN]
    else
      line.take MAX_LINE_LEN :: logChunksFuel fuel (line.drop MAX_LINE_LEN)

/-- The sequence of messages the `while True` loop in
`LogOutputStream.write` passes to `Log.println` for one line. -/
def logChunks (line : List Char) : List (List Char) :=
  logChunksFuel line.length line

/-- One iteration of the `for line in s.splitlines()` loop:
`line = line or " "` replaces an empty line by a single space, then the
inner loop logs the chunks. -/
def logLine (line : List Char) : List (List Char) :=
  logChunks (if line = [] then [' '] else line)

/-- The method `LogOutputStream.write(s)`: the in-order list of messages passed to
`Log.println`. -/
def write (s : List Char) : List (List Char) :=
  (splitlines s).flatMap logLine

theorem logChunksFuel_flatten (fuel : Nat) :
    ∀ l : List Char, l.length ≤ fuel → (logChunksFuel fuel l).flatten = l := by
  induction fuel with
  | zero =>
    intro l hl
    have hnil : l = [] := List.length_eq_zero.mp (Nat.le_zero.mp hl)
    subst hnil
    rfl
  | succ fuel ih =>
    intro l hl
    by_cases h : l.drop MAX_LINE_LEN = []
    · have := List.take_append_drop MAX_LINE_LEN l
      rw [h, List.append_nil] at this
      simp [logChunksFuel, h, this]
    · have hlen : (l.drop MAX_LINE_LEN).length ≤ fuel := by
        have : MAX_LINE_LEN ≠ 0 := by decide
        rw [List.length_drop]
        omega
      simp only [logChunksFuel, h, if_false, List.flatten_cons, ih _ hlen]
      exact List.take_append_drop MAX_LINE_LEN l

theorem logChunksFuel_sound (fuel : Nat) :
    ∀ l : List Char, l.length ≤ fuel → l ≠ [] →
      ∀ m ∈ logChunksFuel fuel l, m ≠ [] ∧ m.length ≤ MAX_LINE_LEN := by
  induction fuel with
  | zero =>
    intro l hl hne
    exact absurd (List.length_eq_zero.mp (Nat.le_zero.mp hl)) hne
  | succ fuel ih =>
    intro l hl hne m hm
    have htake : l.take MAX_LINE_LEN ≠ [] ∧ (l.take MAX_LINE_LEN).length ≤ MAX_LINE_LEN := by
      constructor
      · simp [List.take_eq_nil_iff, hne, MAX_LINE_LEN]
      · simp [List.length_take]
    by_cases h : l.drop MAX_LINE_LEN = []
    · simp only [logChunksFuel, h, if_true, List.mem_singleton] at hm
      exact hm ▸ htake
    · simp only [logChunksFuel, h, if_false, List.mem_cons] at hm
      rcases hm with hm | hm
      · exact hm ▸ htake
      · have hlen : (l.drop MAX_LINE_LEN).length ≤ fuel := by
          have : MAX_LINE_LEN ≠ 0 := by decide
          rw [List.length_drop]
          omega
        exact ih _ hlen h m hm

theorem logChunks_flatten (l : List Char) : (logChunks l).flatten = l :=
  logChunksFuel_flatten l.length l (Nat.le_refl _)

theorem logChunks_sound (l : List Char) (hne : l ≠ []) :
    ∀ m ∈ logChunks l, m ≠ [] ∧ m.length ≤ MAX_LINE_LEN :=
  logChunksFuel_sound l.length l (Nat.le_refl _) hne

/-- C10: for every string `s`, every message that `LogOutputStream.write(s)`
passes to `Log.println` is non-empty and at most `MAX_LINE_LEN` (4060)
characters long; an empty line of `s` is logged as the single message `" "`;
a non-empty line is logged as consecutive chunks whose in-order concatenation
equals the line exactly; and a write of a string containing no lines logs
nothing. -/
theorem C10_write_messages (s : List Char) :
    (∀ m ∈ write s, m ≠ [] ∧ m.length ≤ MAX_LINE_LEN) ∧
    (∀ line ∈ splitlines s, line = [] → logLine line = [[' ']]) ∧
    (∀ line ∈ splitlines s, line ≠ [] → (logLine line).flatten = line) ∧
    (splitlines s = [] → write s = []) := by
  refine ⟨?_, ?_, ?_, ?_⟩
  · intro m hm
    rw [write, List.mem_flatMap] at hm
    obtain ⟨line, -, hmem⟩ := hm
    rw [logLine] at hmem
    refine logChunks_sound _ ?_ m hmem
    split <;> simp_all
  · intro line _ hnil
    subst hnil
    rfl
  · intro line _ hne
    rw [logLine, if_neg hne]
    exact logChunks_flatten line
  · intro hnil
    rw [write, hnil]
    rfl

/-- Witness for C10 at concrete inputs: the string `"hi\n"` logs the message
`"hi"`, a lone newline logs a single space, the chunks of `"hi"` concatenate
to `"hi"`, and writing the empty string logs nothing. -/
theorem C10_write_messages_witness :
    (['h', 'i'] ≠ [] ∧ ['h', 'i'].length ≤ MAX_LINE_LEN) ∧
    logLine [] = [[' ']] ∧
    (logLine ['h', 'i']).flatten = ['h', 'i'] ∧
    write [] = [] := by
  refine ⟨?_, ?_, ?_, ?_⟩
  · exact (C10_write_messages ['h', 'i', '\n']).1 ['h', 'i'] (by decide)
  · exact (C10_write_messages ['\n']).2.1 [] (by decide) rfl
  · exact (C10_write_messages ['h', 'i']).2.2.1 ['h', 'i'] (by decide) (by decide)
  · exact (C10_write_messages []).2.2.2 rfl

end AndroidStream

namespace Importer

/-- Modelled from the spec: the kinds of archive entries
(`src/product/runtime/src/main/python/java/android/importer.py` is not among
the available sources; the data model follows spec section 3). -/
inductive EntryKind
  | SourceFile
  | CompiledArtifact
  | NativeLibrary
  | PackageMarker
  | PlainResource
deriving DecidableEq

/-- Modelled from the spec: one named item inside an archive root, with its
slash-separated path, kind, sizes, archive-declared stored modification time,
and raw content bytes. -/
structure ArchiveEntry where
  path : String
  kind : EntryKind
  rawSize : Nat
  compressedSize : Nat
  storedMtime : Nat
  data : List Nat
deriving DecidableEq

/-- A file in the writable on-disk cache: its modification time, its
inode (filesystem identity), and its content bytes. -/
structure CacheFile where
  mtime : Nat
  ino : Nat
  data : List Nat
deriving DecidableEq

/-- The extraction-cache filesystem state: the files keyed by path, plus the
next unused inode number (a fresh write always creates a new inode, since
writers use write-then-rename). -/
structure ExtState where
  files : List (String × CacheFile)
  nextIno : Nat
deriving DecidableEq

/-- First-match association-list lookup by string key. -/
def alookup {α : Type} : List (String × α) → String → Option α
  | [], _ => none
  | (k, v) :: rest, n => if n = k then some v else alookup rest n

/-- Remove every binding of path `p`. -/
def removeFile {α : Type} : List (String × α) → String → List (String × α)
  | [], _ => []
  | kv :: rest, p =>
    if kv.1 = p then removeFile rest p else kv :: removeFile rest p

/-- Atomic write-then-rename of `data` at path `p` performed at wall-clock
time `now`: the renamed-in file replaces what was at `p`, carries a fresh
inode, and initially has mtime `now`. -/
def writeAtomic (st : ExtState) (p : String) (data : List Nat) (now : Nat) : ExtState :=
  { files := (p, ⟨now, st.nextIno, data⟩) :: removeFile st.files p,
    nextIno := st.nextIno + 1 }

/-- Set the modification time of the file bound at path `p` to `t`. -/
def setMtimeFiles : List (String × CacheFile) → String → Nat → List (String × CacheFile)
  | [], _, _ => []
  | kv :: rest, p, t =>
    (if kv.1 = p then (kv.1, { kv.2 with mtime := t }) else kv) :: setMtimeFiles rest p t

/-- Set the modification time of the file at path `p` to `t`. -/
def setMtime (st : ExtState) (p : String) (t : Nat) : ExtState :=
  { st with files := setMtimeFiles st.files p t }

/-- Modelled from the spec: `ExtractionCache.materialize` (spec section 4.3).
If a file already exists at the cache path and its modification time equals
the entry's `storedMtime`, return unchanged (no I/O); otherwise write the
entry's raw bytes atomically at wall-clock time `now` and set the file's
modification time to `storedMtime`.  The boolean reports whether a write
occurred. -/
def materialize (st : ExtState) (now : Nat) (p : String) (e : ArchiveEntry) :
    ExtState × Bool :=
  match alookup st.files p with
  | some f =>
    if f.mtime = e.storedMtime then (st, false)
    else (setMtime (writeAtomic st p e.data now) p e.storedMtime, true)
  | none => (setMtime (writeAtomic st p e.data now) p e.storedMtime, true)

theorem alookup_removeFile_self {α : Type} (fs : List (String × α)) (p : String) :
    alookup (removeFile fs p) p = none := by
  induction fs with
  | nil => rfl
  | cons kv rest ih =>
    rw [removeFile]
    by_cases h : kv.1 = p
    · rw [if_pos h]
      exact ih
    · rw [if_neg h, alookup, if_neg (fun hpk => h hpk.symm)]
      exact ih

theorem alookup_removeFile_ne {α : Type} (fs : List (String × α)) (p q : String)
    (hne : q ≠ p) : alookup (removeFile fs p) q = alookup fs q := by
  induction fs with
  | nil => rfl
  | cons kv rest ih =>
    rw [removeFile]
    by_cases h : kv.1 = p
    · rw [if_pos h, alookup, if_neg (fun hq => hne (hq.trans h)), ih]
    · rw [if_neg h, alookup, alookup]
      by_cases hq : q = kv.1
      · rw [if_pos hq, if_pos hq]
      · rw [if_neg hq, if_neg hq, ih]

theorem alookup_setMtimeFiles_self (fs : List (String × CacheFile)) (p : String) (t : Nat) :
    alookup (setMtimeFiles fs p t) p =
      (alookup fs p).map (fun f => { f with mtime := t }) := by
  induction fs with
  | nil => rfl
  | cons kv rest ih =>
    rw [setMtimeFiles]
    by_cases h : kv.1 = p
    · rw [if_pos h, alookup, alookup, if_pos h.symm, if_pos h.symm]
      rfl
    · rw [if_neg h, alookup, alookup,
        if_neg (fun hpk : p = kv.1 => h hpk.symm), if_neg (fun hpk : p = kv.1 => h hpk.symm)]
      exact ih

theorem alookup_setMtimeFiles_ne (fs : List (String × CacheFile)) (p q : String) (t : Nat)
    (hne : q ≠ p) : alookup (setMtimeFiles fs p t) q = alookup fs q := by
  induction fs with
  | nil => rfl
  | cons kv rest ih =>
    rw [setMtimeFiles]
    by_cases h : kv.1 = p
    · rw [if_pos h, alookup, alookup, if_neg (fun hq => hne (hq.trans h)),
        if_neg (fun hq => hne (hq.trans h))]
      exact ih
    · rw [if_neg h, alookup, alookup]
      by_cases hq : q = kv.1
      · rw [if_pos hq, if_pos hq]
      · rw [if_neg hq, if_neg hq, ih]

theorem alookup_writeAtomic_self (st : ExtState) (p : String) (data : List Nat) (now : Nat) :
    alookup (writeAtomic st p data now).files p = some ⟨now, st.nextIno, data⟩ := by
  simp [writeAtomic, alookup]

theorem alookup_writeAtomic_ne (st : ExtState) (p q : String) (data : List Nat) (now : Nat)
    (hne : q ≠ p) : alookup (writeAtomic st p data now).files q = alookup st.files q := by
  simp only [writeAtomic, alookup, if_neg hne]
  exact alookup_removeFile_ne st.files p q hne

theorem extract_lookup_self (st : ExtState) (now : Nat) (p : String) (e : ArchiveEntry) :
    alookup (setMtime (writeAtomic st p e.data now) p e.storedMtime).files p =
      some ⟨e.storedMtime, st.nextIno, e.data⟩ := by
  rw [setMtime]
  show alookup (setMtimeFiles (writeAtomic st p e.data now).files p e.storedMtime) p = _
  rw [alookup_setMtimeFiles_self, alookup_writeAtomic_self]
  rfl

theorem materialize_lookup_self (st : ExtState) (now : Nat) (p : String) (e : ArchiveEntry) :
    ∃ f, alookup (materialize st now p e).1.files p = some f ∧ f.mtime = e.storedMtime := by
  cases hl : alookup st.files p with
  | none =>
    refine ⟨⟨e.storedMtime, st.nextIno, e.data⟩, ?_, rfl⟩
    simp only [materialize, hl]
    exact extract_lookup_self st now p e
  | some f =>
    by_cases h : f.mtime = e.storedMtime
    · refine ⟨f, ?_, h⟩
      simp only [materialize, hl, if_pos h]
    · refine ⟨⟨e.storedMtime, st.nextIno, e.data⟩, ?_, rfl⟩
      simp only [materialize, hl, if_neg h]
      exact extract_lookup_self st now p e

theorem materialize_lookup_ne (st : ExtState) (now : Nat) (p q : String) (e : ArchiveEntry)
    (hne : q ≠ p) : alookup (materialize st now p e).1.files q = alookup st.files q := by
  cases hl : alookup st.files p with
  | none =>
    simp only [materialize, hl, setMtime]
    show alookup (setMtimeFiles (writeAtomic st p e.data now).files p e.storedMtime) q = _
    rw [alookup_setMtimeFiles_ne _ _ _ _ hne, alookup_writeAtomic_ne _ _ _ _ _ hne]
  | some f =>
    by_cases h : f.mtime = e.storedMtime
    · simp only [materialize, hl, if_pos h]
    · simp only [materialize, hl, if_neg h, setMtime]
      show alookup (setMtimeFiles (writeAtomic st p e.data now).files p e.storedMtime) q = _
      rw [alookup_setMtimeFiles_ne _ _ _ _ hne, alookup_writeAtomic_ne _ _ _ _ _ hne]

/-- C2: materializing an already-current cache entry performs zero writes.
If the cache file at `p` exists with modification time equal to the entry's
`storedMtime`, `materialize` returns the state unchanged (same file list, so
unchanged mtime and inode/identity) and reports no write; consequently a
repeated `materialize` call right after any `materialize` call is always such
a no-op. -/
theorem C2_idempotent_materialize (st : ExtState) (now now' : Nat) (p : String)
    (e : ArchiveEntry) :
    (∀ f, alookup st.files p = some f → f.mtime = e.storedMtime →
      materialize st now p e = (st, false)) ∧
    materialize (materialize st now p e).1 now' p e = ((materialize st now p e).1, false) := by
  constructor
  · intro f hf hm
    simp only [materialize, hf, if_pos hm]
  · obtain ⟨f, hf, hm⟩ := materialize_lookup_self st now p e
    generalize hst : (materialize st now p e).1 = st1 at hf ⊢
    simp only [materialize, hf, if_pos hm]

/-- Witness for C2 at a concrete state: a cache file at `"app/a.txt"` whose
mtime `5` equals the entry's `storedMtime` is returned untouched. -/
theorem C2_idempotent_materialize_witness :
    materialize ⟨[("app/a.txt", ⟨5, 0, [7]⟩)], 1⟩ 99 "app/a.txt"
        ⟨"app/a.txt", EntryKind.PlainResource, 1, 1, 5, [7]⟩ =
      (⟨[("app/a.txt", ⟨5, 0, [7]⟩)], 1⟩, false) :=
  (C2_idempotent_materialize ⟨[("app/a.txt", ⟨5, 0, [7]⟩)], 1⟩ 99 99 "app/a.txt"
    ⟨"app/a.txt", EntryKind.PlainResource, 1, 1, 5, [7]⟩).1 ⟨5, 0, [7]⟩ rfl rfl

/-- C3: a missing cache file, or one whose modification time differs from the
entry's `storedMtime` (e.g. merely touched), is re-extracted: `materialize`
reports a write and the resulting file carries the entry's raw bytes with
modification time equal to `storedMtime` — the archive-declared value, not
the wall-clock time `now` of extraction. -/
theorem C3_reextract_sets_stored_mtime (st : ExtState) (now : Nat) (p : String)
    (e : ArchiveEntry)
    (h : alookup st.files p = none ∨
      ∃ f, alookup st.files p = some f ∧ f.mtime ≠ e.storedMtime) :
    (materialize st now p e).2 = true ∧
    alookup (materialize st now p e).1.files p =
      some ⟨e.storedMtime, st.nextIno, e.data⟩ := by
  rcases h with h | ⟨f, hf, hm⟩
  · constructor
    · simp only [materialize, h]
    · simp only [materialize, h]
      exact extract_lookup_self st now p e
  · constructor
    · simp only [materialize, hf, if_neg hm]
    · simp only [materialize, hf, if_neg hm]
      exact extract_lookup_self st now p e

/-- Witness for C3 at a concrete state: a cache file touched to mtime `99`
(entry `storedMtime` is `5`) is re-extracted at wall-clock time `1000`, and
the resulting mtime is `5`, not `1000`. -/
theorem C3_reextract_sets_stored_mtime_witness :
    (materialize ⟨[("app/a.txt", ⟨99, 0, [7]⟩)], 1⟩ 1000 "app/a.txt"
        ⟨"app/a.txt", EntryKind.PlainResource, 1, 1, 5, [7]⟩).2 = true ∧
    alookup (materialize ⟨[("app/a.txt", ⟨99, 0, [7]⟩)], 1⟩ 1000 "app/a.txt"
        ⟨"app/a.txt", EntryKind.PlainResource, 1, 1, 5, [7]⟩).1.files "app/a.txt" =
      some ⟨5, 1, [7]⟩ :=
  C3_reextract_sets_stored_mtime ⟨[("app/a.txt", ⟨99, 0, [7]⟩)], 1⟩ 1000 "app/a.txt"
    ⟨"app/a.txt", EntryKind.PlainResource, 1, 1, 5, [7]⟩
    (Or.inr ⟨⟨99, 0, [7]⟩, rfl, by decide⟩)

theorem alookup_cons_self {α : Type} (k : String) (v : α) (rest : List (String × α)) :
    alookup ((k, v) :: rest) k = some v := by
  rw [alookup, if_pos rfl]

theorem alookup_cons_ne {α : Type} (k : String) (v : α) (rest : List (String × α))
    (q : String) (h : q ≠ k) : alookup ((k, v) :: rest) q = alookup rest q := by
  rw [alookup, if_neg h]

/-- A no-op `materialize`: an existing cache file whose mtime equals the
entry's `storedMtime` is left untouched. -/
theorem materialize_noop (st : ExtState) (now : Nat) (p : String) (e : ArchiveEntry)
    (f : CacheFile) (hf : alookup st.files p = some f) (hm : f.mtime = e.storedMtime) :
    materialize st now p e = (st, false) := by
  simp only [materialize, hf, if_pos hm]

/-- Modelled from the spec: materialize each required bootstrap module in
turn (the first pass of `BootstrapStager.stage`, spec section 4.5). -/
def materializeAll (now : Nat) : List (String × ArchiveEntry) → ExtState → ExtState
  | [], st => st
  | (p, e) :: rest, st => materializeAll now rest (materialize st now p e).1

/-- The paths of the fixed required set. -/
def requiredPaths (required : List (String × ArchiveEntry)) : List String :=
  required.map Prod.fst

/-- Modelled from the spec: the stray-file sweep of `BootstrapStager.stage`:
every file whose path is not in the fixed required set is deleted. -/
def keepRequired (paths : List String) : List (String × CacheFile) → List (String × CacheFile)
  | [] => []
  | kv :: rest =>
    if kv.1 ∈ paths then kv :: keepRequired paths rest else keepRequired paths rest

/-- Modelled from the spec: `BootstrapStager.stage` (spec section 4.5): for
each fixed native-support module, materialize it via the extraction cache
(idempotent), then delete every file in the staging tree not present in the
fixed required set. -/
def stage (required : List (String × ArchiveEntry)) (now : Nat) (st : ExtState) : ExtState :=
  let st1 := materializeAll now required st
  { st1 with files := keepRequired (requiredPaths required) st1.files }

theorem materializeAll_lookup_not_mem (now : Nat) (l : List (String × ArchiveEntry))
    (st : ExtState) (q : String) (hq : ¬ q ∈ requiredPaths l) :
    alookup (materializeAll now l st).files q = alookup st.files q := by
  induction l generalizing st with
  | nil => rfl
  | cons hd rest ih =>
    obtain ⟨p, e⟩ := hd
    simp only [requiredPaths, List.map_cons, List.mem_cons, not_or] at hq
    obtain ⟨hq1, hq2⟩ := hq
    rw [materializeAll, ih _ hq2, materialize_lookup_ne st now p q e hq1]

theorem materializeAll_lookup_present (now : Nat) (l : List (String × ArchiveEntry))
    (st : ExtState) (hnd : (requiredPaths l).Nodup) :
    ∀ pe ∈ l, ∃ f, alookup (materializeAll now l st).files pe.1 = some f ∧
      f.mtime = pe.2.storedMtime := by
  induction l generalizing st with
  | nil =>
    intro pe h
    cases h
  | cons hd rest ih =>
    obtain ⟨p, e⟩ := hd
    simp only [requiredPaths, List.map_cons, List.nodup_cons] at hnd
    obtain ⟨hnotmem, hnd'⟩ := hnd
    intro pe hmem
    rcases List.mem_cons.mp hmem with heq | hmem'
    · subst heq
      obtain ⟨f, hf, hm⟩ := materialize_lookup_self st now p e
      refine ⟨f, ?_, hm⟩
      rw [materializeAll, materializeAll_lookup_not_mem now rest _ p hnotmem]
      exact hf
    · exact ih _ hnd' pe hmem'

theorem materializeAll_lookup_current (now : Nat) (l : List (String × ArchiveEntry))
    (st : ExtState) (hnd : (requiredPaths l).Nodup) :
    ∀ pe ∈ l, ∀ f, alookup st.files pe.1 = some f → f.mtime = pe.2.storedMtime →
      alookup (materializeAll now l st).files pe.1 = some f := by
  induction l generalizing st with
  | nil =>
    intro pe h
    cases h
  | cons hd rest ih =>
    obtain ⟨p, e⟩ := hd
    simp only [requiredPaths, List.map_cons, List.nodup_cons] at hnd
    obtain ⟨hnotmem, hnd'⟩ := hnd
    intro pe hmem f hf hm
    rcases List.mem_cons.mp hmem with heq | hmem'
    · subst heq
      rw [materializeAll, materializeAll_lookup_not_mem now rest _ p hnotmem,
        materialize_noop st now p e f hf hm]
      exact hf
    · have hne : pe.1 ≠ p := fun h =>
        hnotmem (h ▸ List.mem_map_of_mem Prod.fst hmem')
      refine ih _ hnd' pe hmem' f ?_ hm
      rw [materialize_lookup_ne st now p pe.1 e hne]
      exact hf

theorem alookup_keepRequired_mem (paths : List String) (fs : List (String × CacheFile))
    (q : String) (hq : q ∈ paths) :
    alookup (keepRequired paths fs) q = alookup fs q := by
  induction fs with
  | nil => rfl
  | cons kv rest ih =>
    obtain ⟨k, v⟩ := kv
    rw [keepRequired]
    by_cases h : k ∈ paths
    · rw [if_pos h]
      by_cases hqk : q = k
      · subst hqk
        rw [alookup_cons_self, alookup_cons_self]
      · rw [alookup_cons_ne _ _ _ _ hqk, alookup_cons_ne _ _ _ _ hqk, ih]
    · rw [if_neg h]
      by_cases hqk : q = k
      · exact absurd (hqk ▸ hq) h
      · rw [alookup_cons_ne _ _ _ _ hqk, ih]

theorem alookup_keepRequired_not_mem (paths : List String) (fs : List (String × CacheFile))
    (q : String) (hq : ¬ q ∈ paths) :
    alookup (keepRequired paths fs) q = none := by
  induction fs with
  | nil => rfl
  | cons kv rest ih =>
    obtain ⟨k, v⟩ := kv
    rw [keepRequired]
    by_cases h : k ∈ paths
    · have hqk : q ≠ k := fun heq => hq (heq ▸ h)
      rw [if_pos h, alookup_cons_ne _ _ _ _ hqk, ih]
    · rw [if_neg h, ih]

/-- C7: after `stage()`, every file in the staging tree that is not in the
fixed required set has been deleted, every required file is present (with
mtime equal to its entry's `storedMtime`), and a required file that was
already current beforehand is unmodified (same mtime, inode, and content). -/
theorem C7_stage_cleanup (required : List (String × ArchiveEntry)) (now : Nat)
    (st : ExtState) (hnd : (requiredPaths required).Nodup) :
    (∀ q, ¬ q ∈ requiredPaths required → alookup (stage required now st).files q = none) ∧
    (∀ pe ∈ required, ∃ f, alookup (stage required now st).files pe.1 = some f ∧
      f.mtime = pe.2.storedMtime) ∧
    (∀ pe ∈ required, ∀ f, alookup st.files pe.1 = some f → f.mtime = pe.2.storedMtime →
      alookup (stage required now st).files pe.1 = some f) := by
  refine ⟨?_, ?_, ?_⟩
  · intro q hq
    rw [stage]
    exact alookup_keepRequired_not_mem _ _ _ hq
  · intro pe hmem
    obtain ⟨f, hf, hm⟩ := materializeAll_lookup_present now required st hnd pe hmem
    refine ⟨f, ?_, hm⟩
    rw [stage, alookup_keepRequired_mem _ _ _
      (show pe.1 ∈ requiredPaths required from List.mem_map_of_mem Prod.fst hmem)]
    exact hf
  · intro pe hmem f hf hm
    rw [stage, alookup_keepRequired_mem _ _ _
      (show pe.1 ∈ requiredPaths required from List.mem_map_of_mem Prod.fst hmem)]
    exact materializeAll_lookup_current now required st hnd pe hmem f hf hm

/-- Witness for C7 at a concrete state: with one required bootstrap module
(current on disk, mtime 5 = storedMtime) and one stray pid file, `stage`
deletes the stray and leaves the required file byte-identical. -/
theorem C7_stage_cleanup_witness :
    alookup (stage [("bn/x86_64/math.so", ⟨"bn/x86_64/math.so", EntryKind.NativeLibrary,
        1, 1, 5, [1]⟩)] 50
      ⟨[("bn/x86_64/math.so", ⟨5, 7, [1]⟩), ("bn/x86_64/123.txt", ⟨9, 8, [2]⟩)], 9⟩).files
      "bn/x86_64/123.txt" = none ∧
    alookup (stage [("bn/x86_64/math.so", ⟨"bn/x86_64/math.so", EntryKind.NativeLibrary,
        1, 1, 5, [1]⟩)] 50
      ⟨[("bn/x86_64/math.so", ⟨5, 7, [1]⟩), ("bn/x86_64/123.txt", ⟨9, 8, [2]⟩)], 9⟩).files
      "bn/x86_64/math.so" = some ⟨5, 7, [1]⟩ :=
  ⟨(C7_stage_cleanup [("bn/x86_64/math.so", ⟨"bn/x86_64/math.so", EntryKind.NativeLibrary,
        1, 1, 5, [1]⟩)] 50
      ⟨[("bn/x86_64/math.so", ⟨5, 7, [1]⟩), ("bn/x86_64/123.txt", ⟨9, 8, [2]⟩)], 9⟩
      (by decide)).1 "bn/x86_64/123.txt" (by decide),
   (C7_stage_cleanup [("bn/x86_64/math.so", ⟨"bn/x86_64/math.so", EntryKind.NativeLibrary,
        1, 1, 5, [1]⟩)] 50
      ⟨[("bn/x86_64/math.so", ⟨5, 7, [1]⟩), ("bn/x86_64/123.txt", ⟨9, 8, [2]⟩)], 9⟩
      (by decide)).2.2
      ("bn/x86_64/math.so", ⟨"bn/x86_64/math.so", EntryKind.NativeLibrary, 1, 1, 5, [1]⟩)
      (by decide) ⟨5, 7, [1]⟩ rfl rfl⟩

/-- The top-level package owning a slash-separated entry path: the first
path component. -/
def topLevelPackage (p : String) : String :=
  String.mk (p.data.takeWhile (fun c => c ≠ '/'))

/-- Modelled from the spec: the `PlainResource` entries owned by a top-level
package — the candidates extracted when that package is first imported
(spec section 4.3). -/
def packageResources (entries : List ArchiveEntry) (pkg : String) : List ArchiveEntry :=
  entries.filter (fun e =>
    e.kind == EntryKind.PlainResource && topLevelPackage e.path == pkg)

/-- An import-system event over the process lifetime: importing a top-level
package, or resolving a native library by name. -/
inductive ImportEvent
  | importPkg (pkg : String)
  | loadNative (path : String)
deriving DecidableEq

/-- The process state: the extraction cache plus the packages imported so
far. -/
structure AppState where
  ext : ExtState
  imported : List String

/-- Modelled from the spec: the effect of one event.  Importing a top-level
package materializes exactly its `PlainResource` entries; resolving a native
library materializes the named `NativeLibrary` entry (spec sections 4.3 and
6); nothing else writes to the extraction cache. -/
def step (entries : List ArchiveEntry) (now : Nat) (st : AppState) :
    ImportEvent → AppState
  | ImportEvent.importPkg pkg =>
    { ext := materializeAll now
        ((packageResources entries pkg).map (fun e => (e.path, e))) st.ext,
      imported := pkg :: st.imported }
  | ImportEvent.loadNative path =>
    match entries.find? (fun e => e.path == path && e.kind == EntryKind.NativeLibrary) with
    | some e => { st with ext := (materialize st.ext now e.path e).1 }
    | none => st

/-- Run a whole trace of import events. -/
def run (entries : List ArchiveEntry) (now : Nat) : AppState → List ImportEvent → AppState
  | st, [] => st
  | st, ev :: evs => run entries now (step entries now st ev) evs

theorem packageResources_path_ne (entries : List ArchiveEntry) (pkg : String)
    (e : ArchiveEntry) (hpkg : pkg ≠ topLevelPackage e.path) :
    ¬ e.path ∈ requiredPaths ((packageResources entries pkg).map (fun r => (r.path, r))) := by
  intro hmem
  simp only [requiredPaths, List.map_map, List.mem_map, Function.comp] at hmem
  obtain ⟨r, hr, hpath⟩ := hmem
  rw [packageResources, List.mem_filter] at hr
  have := hr.2
  rw [Bool.and_eq_true, beq_iff_eq, beq_iff_eq] at this
  exact hpkg (by rw [← this.2, hpath])

/-- C4: lazy resource extraction.  A `PlainResource` entry whose owning
top-level package is never imported during the whole trace is never
materialized into the extraction cache: no file for it ever exists there.
(Entry paths are unique within the namespace, per spec section 3.) -/
theorem C4_lazy_resource_extraction (entries : List ArchiveEntry) (now : Nat)
    (trace : List ImportEvent) (e : ArchiveEntry)
    (hkind : e.kind = EntryKind.PlainResource)
    (huniq : ∀ e' ∈ entries, e'.path = e.path → e' = e)
    (hnever : ∀ pkg, ImportEvent.importPkg pkg ∈ trace → pkg ≠ topLevelPackage e.path)
    (st : AppState) (hstart : alookup st.ext.files e.path = none) :
    alookup (run entries now st trace).ext.files e.path = none := by
  induction trace generalizing st with
  | nil => exact hstart
  | cons ev evs ih =>
    rw [run]
    refine ih (fun pkg hmem => hnever pkg (List.mem_cons_of_mem ev hmem)) _ ?_
    cases ev with
    | importPkg pkg =>
      have hpkg : pkg ≠ topLevelPackage e.path :=
        hnever pkg (List.mem_cons_self _ _)
      rw [step]
      show alookup (materializeAll now _ st.ext).files e.path = none
      rw [materializeAll_lookup_not_mem now _ _ _
        (packageResources_path_ne entries pkg e hpkg)]
      exact hstart
    | loadNative path =>
      rw [step]
      cases hfind : entries.find?
          (fun r => r.path == path && r.kind == EntryKind.NativeLibrary) with
      | none => exact hstart
      | some r =>
        have hrmem : r ∈ entries := List.mem_of_find?_eq_some hfind
        have hrprop := List.find?_some hfind
        rw [Bool.and_eq_true, beq_iff_eq, beq_iff_eq] at hrprop
        have hne : e.path ≠ r.path := by
          intro hp
          have : r = e := huniq r hrmem hp.symm
          rw [this, hkind] at hrprop
          exact absurd hrprop.2 (by intro h; cases h)
        show alookup (materialize st.ext now r.path r).1.files e.path = none
        rw [materialize_lookup_ne st.ext now r.path e.path r hne]
        exact hstart

/-- Witness for C4 at a concrete trace: the resource
`"never_imported/x.txt"` stays unextracted across a trace that imports a
different package and resolves an unrelated native library. -/
theorem C4_lazy_resource_extraction_witness :
    alookup (run [⟨"never_imported/x.txt", EntryKind.PlainResource, 1, 1, 5, [1]⟩] 50
        ⟨⟨[], 0⟩, []⟩
        [ImportEvent.importPkg "android1",
         ImportEvent.loadNative "never_imported/x.txt"]).ext.files
      "never_imported/x.txt" = none :=
  C4_lazy_resource_extraction
    [⟨"never_imported/x.txt", EntryKind.PlainResource, 1, 1, 5, [1]⟩] 50
    [ImportEvent.importPkg "android1",
     ImportEvent.loadNative "never_imported/x.txt"]
    ⟨"never_imported/x.txt", EntryKind.PlainResource, 1, 1, 5, [1]⟩
    rfl
    (by
      intro e' h' hp
      cases h' with
      | head => rfl
      | tail b h'' => cases h'')
    (by
      intro pkg hmem
      simp only [List.mem_cons, List.not_mem_nil, or_false] at hmem
      rcases hmem with h | h
      · injection h with h'
        subst h'
        decide
      · exact ImportEvent.noConfusion h)
    ⟨⟨[], 0⟩, []⟩ rfl

/-- Modelled from the spec: where a module comes from — the protected/core
distribution, the application, or a dependency (spec section 4.4). -/
inductive DistKind
  | core
  | application
  | dependency
deriving DecidableEq

/-- A loaded module: its registered name, attribute set, and reported
originating path. -/
structure PyModule where
  name : String
  attrs : List String
  file : String
deriving DecidableEq

/-- A resolvable module entry: its real name, owning distribution kind,
logical path, and the attributes its body defines. -/
structure ModuleEntry where
  name : String
  dist : DistKind
  file : String
  attrs : List String
deriving DecidableEq

/-- The module registry: registered name → loaded module. -/
structure Registry where
  mods : List (String × PyModule)
deriving DecidableEq

/-- The rename-rejection error message; the spec words it "this loader does
not support loading module X under a different name Y", and the test suite
shows the loader name. -/
def renameErrorMsg (realName loadName : String) : String :=
  "ChaquopyZipImporter does not support loading module '" ++ realName ++
    "' under a different name '" ++ loadName ++ "'"

/-- Modelled from the spec: loading a found module under a requested name
for the legacy load API (spec section 4.4 "Renaming").  A same-name load
registers the module and attaches it as an attribute of its parent package
(normal import behaviour); a renamed load of a protected/core module fails
with an error naming both names; a permitted renamed load registers the
module in the registry under the alternate name and deliberately never
touches the original parent package.  Returns the registry, the loaded
module, and the parent package after the load. -/
def loadModule (reg : Registry) (parent : PyModule) (m : ModuleEntry)
    (loadName : String) : Except String (Registry × PyModule × PyModule) :=
  if loadName = m.name then
    Except.ok (⟨(m.name, ⟨m.name, m.attrs, m.file⟩) :: reg.mods⟩,
      ⟨m.name, m.attrs, m.file⟩,
      ⟨parent.name, m.name :: parent.attrs, parent.file⟩)
  else if m.dist = DistKind.core then
    Except.error (renameErrorMsg m.name loadName)
  else
    Except.ok (⟨(loadName, ⟨loadName, m.attrs, m.file⟩) :: reg.mods⟩,
      ⟨loadName, m.attrs, m.file⟩, parent)

/-- C5: an attempted load of a protected/core module under an alternate name
fails with a RenameUnsupported error whose message contains both the
original name and the alternate name; for application- and
dependency-supplied modules the alternate-name load succeeds. -/
theorem C5_rename_restriction (reg : Registry) (parent : PyModule) (m : ModuleEntry)
    (loadName : String) (hne : loadName ≠ m.name) :
    (m.dist = DistKind.core →
      loadModule reg parent m loadName = Except.error (renameErrorMsg m.name loadName) ∧
      ∃ a b c, (renameErrorMsg m.name loadName).data =
        a ++ m.name.data ++ b ++ loadName.data ++ c) ∧
    (m.dist = DistKind.application ∨ m.dist = DistKind.dependency →
      loadModule reg parent m loadName =
        Except.ok (⟨(loadName, ⟨loadName, m.attrs, m.file⟩) :: reg.mods⟩,
          ⟨loadName, m.attrs, m.file⟩, parent)) := by
  constructor
  · intro hcore
    refine ⟨by rw [loadModule, if_neg hne, if_pos hcore], ?_⟩
    refine ⟨"ChaquopyZipImporter does not support loading module '".data,
      "' under a different name '".data, "'".data, ?_⟩
    simp [renameErrorMsg]
  · intro happ
    have hcore : m.dist ≠ DistKind.core := by
      rcases happ with h | h <;> rw [h] <;> intro hc <;> cases hc
    rw [loadModule, if_neg hne, if_neg hcore]

/-- Witness for C5 at concrete inputs: loading stdlib `json` as `jason`
fails with a message containing both names; loading the application module
`imp_rename_one` as `imp_rename_1` succeeds. -/
theorem C5_rename_restriction_witness :
    (loadModule ⟨[]⟩ ⟨"", [], ""⟩ ⟨"json", DistKind.core, "stdlib/json.pyc", []⟩ "jason" =
      Except.error (renameErrorMsg "json" "jason") ∧
     ∃ a b c, (renameErrorMsg "json" "jason").data =
       a ++ "json".data ++ b ++ "jason".data ++ c) ∧
    loadModule ⟨[]⟩ ⟨"", [], ""⟩
        ⟨"imp_rename_one", DistKind.application, "app/imp_rename_one.py", ["ID"]⟩
        "imp_rename_1" =
      Except.ok (⟨[("imp_rename_1", ⟨"imp_rename_1", ["ID"], "app/imp_rename_one.py"⟩)]⟩,
        ⟨"imp_rename_1", ["ID"], "app/imp_rename_one.py"⟩, ⟨"", [], ""⟩) :=
  ⟨(C5_rename_restriction ⟨[]⟩ ⟨"", [], ""⟩ ⟨"json", DistKind.core, "stdlib/json.pyc", []⟩
      "jason" (by decide)).1 rfl,
   (C5_rename_restriction ⟨[]⟩ ⟨"", [], ""⟩
      ⟨"imp_rename_one", DistKind.application, "app/imp_rename_one.py", ["ID"]⟩
      "imp_rename_1" (by decide)).2 (Or.inl rfl)⟩

/-- C6: a module successfully loaded under an alternate name is registered
in the module registry under that alternate name (and so importable by that
name), but is never attached as an attribute of its original owning package:
the parent package returned by the load is unchanged, attribute set
included. -/
theorem C6_rename_registers_no_attach (reg : Registry) (parent : PyModule)
    (m : ModuleEntry) (loadName : String) (reg' : Registry) (md parent' : PyModule)
    (hne : loadName ≠ m.name) (hdist : m.dist ≠ DistKind.core)
    (hok : loadModule reg parent m loadName = Except.ok (reg', md, parent')) :
    alookup reg'.mods loadName = some md ∧ md.name = loadName ∧
    parent' = parent ∧ parent'.attrs = parent.attrs := by
  rw [loadModule, if_neg hne, if_neg hdist] at hok
  simp only [Except.ok.injEq, Prod.mk.injEq] at hok
  obtain ⟨hreg, hmd, hparent⟩ := hok
  subst hreg
  subst hmd
  subst hparent
  exact ⟨alookup_cons_self _ _ _, rfl, rfl, rfl⟩

/-- Witness for C6 at concrete inputs: `imp_rename_one` loaded as
`imp_rename_1` is found in the registry under the new name while its parent
package's attributes stay `["x"]`. -/
theorem C6_rename_registers_no_attach_witness :
    alookup [("imp_rename_1",
        (⟨"imp_rename_1", ["ID"], "app/imp_rename_one.py"⟩ : PyModule))] "imp_rename_1" =
      some ⟨"imp_rename_1", ["ID"], "app/imp_rename_one.py"⟩ ∧
    (⟨"imp_rename_1", ["ID"], "app/imp_rename_one.py"⟩ : PyModule).name = "imp_rename_1" ∧
    (⟨"pkg", ["x"], "app/pkg.py"⟩ : PyModule) = ⟨"pkg", ["x"], "app/pkg.py"⟩ ∧
    (⟨"pkg", ["x"], "app/pkg.py"⟩ : PyModule).attrs =
      (⟨"pkg", ["x"], "app/pkg.py"⟩ : PyModule).attrs :=
  C6_rename_registers_no_attach ⟨[]⟩ ⟨"pkg", ["x"], "app/pkg.py"⟩
    ⟨"imp_rename_one", DistKind.application, "app/imp_rename_one.py", ["ID"]⟩
    "imp_rename_1"
    ⟨[("imp_rename_1", ⟨"imp_rename_1", ["ID"], "app/imp_rename_one.py"⟩)]⟩
    ⟨"imp_rename_1", ["ID"], "app/imp_rename_one.py"⟩ ⟨"pkg", ["x"], "app/pkg.py"⟩
    (by decide) (by decide) rfl

/-- The logical archive path of an entry under a root (the asset path the
host reports; the same string the extraction cache would use, spec section
6 cache directory layout). -/
def logicalPath (rootId : String) (entryPath : String) : String :=
  rootId ++ "/" ++ entryPath

/-- Modelled from the spec: loading an importable source or compiled-artifact
entry.  The resolved module's reported originating path is the logical
archive path of its source entry, and the extraction cache is not touched
(spec section 4.4: extraction-free for importable source/compiled files). -/
def loadImportable (st : ExtState) (rootId : String) (e : ArchiveEntry) :
    Option (ExtState × String) :=
  match e.kind with
  | EntryKind.SourceFile => some (st, logicalPath rootId e.path)
  | EntryKind.CompiledArtifact => some (st, logicalPath rootId e.path)
  | _ => none

/-- C8: for every importable source or compiled-artifact entry, the resolved
module's reported originating path is the logical archive path of the
source entry, and the load is extraction-free: the cache state is unchanged,
so no file exists at the reported path afterwards when none did before. -/
theorem C8_extraction_free_import (st : ExtState) (rootId : String) (e : ArchiveEntry)
    (hk : e.kind = EntryKind.SourceFile ∨ e.kind = EntryKind.CompiledArtifact) :
    loadImportable st rootId e = some (st, logicalPath rootId e.path) ∧
    (∀ st' p, loadImportable st rootId e = some (st', p) →
      alookup st.files p = none → alookup st'.files p = none) := by
  have heq : loadImportable st rootId e = some (st, logicalPath rootId e.path) := by
    rcases hk with hk | hk <;> simp only [loadImportable, hk]
  refine ⟨heq, ?_⟩
  intro st' p hload habsent
  rw [heq] at hload
  simp only [Option.some.injEq, Prod.mk.injEq] at hload
  obtain ⟨hst, hp⟩ := hload
  subst hst
  subst hp
  exact habsent

/-- Witness for C8 at concrete inputs: the source entry
`murmurhash/about.py` of root `requirements` reports
`requirements/murmurhash/about.py` and stays unextracted. -/
theorem C8_extraction_free_import_witness :
    loadImportable ⟨[], 0⟩ "requirements"
        ⟨"murmurhash/about.py", EntryKind.SourceFile, 1, 1, 5, [1]⟩ =
      some (⟨[], 0⟩, logicalPath "requirements" "murmurhash/about.py") ∧
    alookup (⟨[], 0⟩ : ExtState).files
      (logicalPath "requirements" "murmurhash/about.py") = none :=
  ⟨(C8_extraction_free_import ⟨[], 0⟩ "requirements"
      ⟨"murmurhash/about.py", EntryKind.SourceFile, 1, 1, 5, [1]⟩ (Or.inl rfl)).1,
   (C8_extraction_free_import ⟨[], 0⟩ "requirements"
      ⟨"murmurhash/about.py", EntryKind.SourceFile, 1, 1, 5, [1]⟩ (Or.inl rfl)).2
     ⟨[], 0⟩ (logicalPath "requirements" "murmurhash/about.py")
     (C8_extraction_free_import ⟨[], 0⟩ "requirements"
       ⟨"murmurhash/about.py", EntryKind.SourceFile, 1, 1, 5, [1]⟩ (Or.inl rfl)).1 rfl⟩

/-- A distribution manifest: the Name, Version, Author and Requires records
(spec section 6). -/
structure Manifest where
  name : String
  version : String
  author : String
  requires : List String
deriving DecidableEq

/-- Modelled from the spec: parse one distribution's manifest key/value
records, read directly from the archive's metadata entries. -/
def parseManifest (records : List (String × String)) : Manifest :=
  { name := (alookup records "Name").getD "",
    version := (alookup records "Version").getD "",
    author := (alookup records "Author").getD "",
    requires := (records.filter (fun kv => kv.1 == "Requires")).map Prod.snd }

/-- One entry on the resolution namespace: a mounted archive root carrying
the metadata records of its distributions, or a directory whose listing
fails when read (e.g. blocked by access control). -/
inductive NsEntry
  | archive (metadataRecords : List (List (String × String)))
  | unreadableDir (path : String)
deriving DecidableEq

/-- Reading one namespace entry's distributions: archives are read directly
from their metadata records (never extracted); an unreadable directory
raises an error naming its path. -/
def readEntryDists : NsEntry → Except String (List Manifest)
  | NsEntry.archive rs => Except.ok (rs.map parseManifest)
  | NsEntry.unreadableDir p => Except.error p

/-- Modelled from the spec: `MetadataProvider.listDistributions` (spec
section 4.6): collect every readable namespace entry's manifests directly
from archive metadata; a failed read of an entry skips that entry rather
than aborting; the extraction-cache state is passed through untouched. -/
def listDistributions (st : ExtState) (ns : List NsEntry) : ExtState × List Manifest :=
  (st, ns.flatMap (fun entry =>
    match readEntryDists entry with
    | Except.ok ds => ds
    | Except.error _ => []))

/-- C9: `listDistributions` reads each distribution's manifest records
directly from archive metadata entries and never extracts anything (the
cache state is returned unchanged), and an unrelated unreadable directory
entry anywhere on the namespace leaves the listing exactly as it would be
without that entry. -/
theorem C9_metadata_listing_robust (st : ExtState) (ns1 ns2 : List NsEntry) (p : String)
    (rs : List (List (String × String))) :
    (listDistributions st (ns1 ++ NsEntry.unreadableDir p :: ns2)).2 =
      (listDistributions st (ns1 ++ ns2)).2 ∧
    (listDistributions st (ns1 ++ NsEntry.unreadableDir p :: ns2)).1 = st ∧
    (listDistributions st [NsEntry.archive rs]).2 = rs.map parseManifest := by
  refine ⟨?_, rfl, ?_⟩
  · simp [listDistributions, readEntryDists]
  · simp [listDistributions, readEntryDists]

/-- Modelled from the spec: the fixed 16-byte compiled-cache header
`{magic, flags, sourceMtime, sourceSize}` (spec sections 3 and 6); each field
is a 4-byte value. -/
structure CompiledCacheHeader where
  magic : Nat
  flags : Nat
  sourceMtime : Nat
  sourceSize : Nat
deriving DecidableEq

/-- A compiled-cache file: the 16-byte header followed by the payload
(marshalled code) bytes. -/
structure PycFile where
  header : CompiledCacheHeader
  payload : List Nat
deriving DecidableEq

/-- A source entry paired with a compiled cache: its declared modification
time and size, and its text. -/
structure SourceEntry where
  mtime : Nat
  size : Nat
  text : List Nat
deriving DecidableEq

/-- Modelled from the spec: a cache file is valid iff its header's magic
matches the current runtime and its `sourceMtime`/`sourceSize` fields match
the source's declared mtime/size — a timestamp/size check, never a content
hash (spec section 6). -/
def headerMatches (magic : Nat) (h : CompiledCacheHeader) (src : SourceEntry) : Bool :=
  h.magic == magic && h.sourceMtime == src.mtime && h.sourceSize == src.size

/-- The freshly computed header written alongside a newly compiled artifact. -/
def headerFor (magic : Nat) (src : SourceEntry) : CompiledCacheHeader :=
  ⟨magic, 0, src.mtime, src.size⟩

/-- Modelled from the spec: `CompiledCodeCache.getOrCompile` (spec section
4.2).  If a cache file exists and its header matches the source's declared
mtime/size, the stored payload is returned verbatim and nothing is written;
otherwise the source is compiled and artifact plus fresh header are written
atomically.  Returns the artifact payload, the cache file contents after the
call, and whether a write occurred. -/
def getOrCompile (magic : Nat) (compile : List Nat → List Nat) (src : SourceEntry)
    (cache : Option PycFile) : List Nat × Option PycFile × Bool :=
  match cache with
  | some f =>
    if headerMatches magic f.header src then (f.payload, some f, false)
    else
      let payload := compile src.text
      (payload, some ⟨headerFor magic src, payload⟩, true)
  | none =>
    let payload := compile src.text
    (payload, some ⟨headerFor magic src, payload⟩, true)

/-- C1: header-only cache validity.  If the cache file's header fields match
the source entry's declared values (magic, mtime, size), `getOrCompile`
returns the stored payload verbatim with no recompilation or rewriting —
for every payload, including arbitrarily replaced bytes; if the header's
timestamp field mismatches, `getOrCompile` recompiles and overwrites both
header and payload, and the header afterwards matches the source again. -/
theorem C1_header_only_cache_validity (magic : Nat) (compile : List Nat → List Nat)
    (src : SourceEntry) (f : PycFile) :
    (f.header.magic = magic → f.header.sourceMtime = src.mtime →
      f.header.sourceSize = src.size →
      getOrCompile magic compile src (some f) = (f.payload, some f, false)) ∧
    (f.header.sourceMtime ≠ src.mtime →
      getOrCompile magic compile src (some f) =
        (compile src.text, some ⟨headerFor magic src, compile src.text⟩, true) ∧
      headerMatches magic (headerFor magic src) src = true) := by
  constructor
  · intro h1 h2 h3
    have hm : headerMatches magic f.header src = true := by
      simp [headerMatches, h1, h2, h3]
    simp only [getOrCompile, hm, if_true]
  · intro hne
    have hm : headerMatches magic f.header src = false := by
      simp [headerMatches, hne]
    constructor
    · simp only [getOrCompile, hm, Bool.false_eq_true, if_false]
    · simp [headerMatches, headerFor]

/-- Witness for C1 at concrete inputs: a cache file whose header matches a
source with mtime 5 and size 1 is returned verbatim even though its payload
was replaced by `[9, 9]`; with a corrupted timestamp field `77` it is
recompiled and rewritten with a matching header. -/
theorem C1_header_only_cache_validity_witness :
    getOrCompile 3310 (fun _ => [4, 2]) ⟨5, 1, [104]⟩ (some ⟨⟨3310, 0, 5, 1⟩, [9, 9]⟩) =
      ([9, 9], some ⟨⟨3310, 0, 5, 1⟩, [9, 9]⟩, false) ∧
    (getOrCompile 3310 (fun _ => [4, 2]) ⟨5, 1, [104]⟩ (some ⟨⟨3310, 0, 77, 1⟩, [9, 9]⟩) =
      ([4, 2], some ⟨⟨3310, 0, 5, 1⟩, [4, 2]⟩, true) ∧
     headerMatches 3310 (headerFor 3310 ⟨5, 1, [104]⟩) ⟨5, 1, [104]⟩ = true) :=
  ⟨(C1_header_only_cache_validity 3310 (fun _ => [4, 2]) ⟨5, 1, [104]⟩
      ⟨⟨3310, 0, 5, 1⟩, [9, 9]⟩).1 rfl rfl rfl,
   (C1_header_only_cache_validity 3310 (fun _ => [4, 2]) ⟨5, 1, [104]⟩
      ⟨⟨3310, 0, 77, 1⟩, [9, 9]⟩).2 (by decide)⟩

end Importer
